import Mathlib

/-!
Verification of the Incremental List-Harvesting Engine and the Rate-Limited
Batch Action Executor of `backend/app/instagram_sync.py`.

The Python source is shallowly embedded: every browser/network interaction is
abstracted into an explicit input of the embedded function (the per-item
unfollow action, the random-delay sampler, the rendered surface contents per
extraction pass, the sequence of structured-endpoint pages), and each embedded
definition mirrors the control flow of the function it is named after.
-/

namespace InstagramTool

/-! ## Batch action executor: data model

`instagram_unfollow_user` (instagram_sync.py lines 1174-1302) returns a dict
with keys `success`, `username` and, on failure, `error`; the `username` key
always carries the input handle on every return path.  `Outcome` is that dict.
-/

structure Outcome where
  username : String
  success : Bool
  error : Option String
deriving DecidableEq, Repr

/-- Summary block of a batch result (lines 1346-1350 and 1518-1522). -/
structure BatchSummary where
  total : Nat
  successful : Nat
  failed : Nat
deriving DecidableEq, Repr

/-- Return value of both batch executors (lines 1343-1351 and 1515-1523). -/
structure BatchResult where
  success : Bool
  results : List Outcome
  summary : BatchSummary
deriving DecidableEq, Repr

/-- Embedding of `instagram_unfollow_user` (lines 1174-1302).  The whole
browser interaction is abstracted into `act`, which yields the success flag
and optional error for a handle; the function never raises (the Python
wraps everything in try/except and returns a failure dict), and every return
path carries the input `username`. -/
def instagram_unfollow_user (act : String → Bool × Option String)
    (username : String) : Outcome :=
  { username := username, success := (act username).1, error := (act username).2 }

/-- Successful/failed counters maintained by the batch loops
(lines 1324-1329 and 1497-1502): each produced outcome bumps exactly one
of the two counters. -/
def batchCounts : List Outcome → Nat × Nat
  | [] => (0, 0)
  | o :: rest =>
    let sf := batchCounts rest
    if o.success then (sf.1 + 1, sf.2) else (sf.1, sf.2 + 1)

/-- Embedding of `instagram_unfollow_batch` (lines 1305-1351): one call of
`instagram_unfollow_user` per input handle, in input order, appending each
result; `success` of the whole batch is `failed == 0`. -/
def instagram_unfollow_batch (act : String → Bool × Option String)
    (usernames : List String) : BatchResult :=
  let results := usernames.map (instagram_unfollow_user act)
  let sf := batchCounts results
  { success := sf.2 == 0
    results := results
    summary := { total := usernames.length, successful := sf.1, failed := sf.2 } }

/-! ## Batch action executor: timed event trace

To reason about the inter-item delays (lines 1331-1335 and 1504-1507) we also
embed each batch loop as the sequence of observable events it produces: a
per-item outcome, or a sleep of a given duration.  `random.uniform(min_delay,
max_delay)` is abstracted into a sampler `rand : Nat → ℚ` giving the value
drawn before the i-th item's delay. -/

inductive BatchEvent
  | item : Outcome → BatchEvent
  | sleep : ℚ → BatchEvent
deriving DecidableEq

/-- The sequence of sleep durations appearing in a trace. -/
def sleepsIn (t : List BatchEvent) : List ℚ :=
  t.filterMap fun e => match e with | BatchEvent.sleep d => some d | _ => none

/-- The sequence of outcomes appearing in a trace. -/
def itemsIn (t : List BatchEvent) : List Outcome :=
  t.filterMap fun e => match e with | BatchEvent.item o => some o | _ => none

/-- Whether an event is an item event. -/
def isItemEvent : BatchEvent → Bool
  | BatchEvent.item _ => true
  | BatchEvent.sleep _ => false

/-- Event trace of `instagram_unfollow_batch` (lines 1317-1335): process one
handle, and `if i < len(usernames) - 1` (i.e. unless the item is the last)
sleep a freshly drawn duration.  `i` is the 0-based index of the current
item, used to thread the sampler. -/
def unfollowBatchEvents (act : String → Bool × Option String) (rand : Nat → ℚ) :
    Nat → List String → List BatchEvent
  | _, [] => []
  | _, [u] => [BatchEvent.item (instagram_unfollow_user act u)]
  | i, u :: v :: rest =>
    BatchEvent.item (instagram_unfollow_user act u) ::
      BatchEvent.sleep (rand i) ::
        unfollowBatchEvents act rand (i + 1) (v :: rest)

/-! ## API batch executor -/

/-- One input record of `instagram_unfollow_batch_api` (line 1464): a handle
optionally paired with the numeric id needed for the structured call. -/
structure ApiTarget where
  username : String
  user_id : Option String
deriving DecidableEq, Repr

/-- Embedding of `instagram_unfollow_user_api` (lines 1374-1461): the HTTP
interaction is abstracted into `actApi`; every return path carries the input
`username`. -/
def instagram_unfollow_user_api (actApi : String → String → Bool × Option String)
    (user_id : String) (username : String) : Outcome :=
  { username := username
    success := (actApi user_id username).1
    error := (actApi user_id username).2 }

/-- The outcome recorded for a target with no `user_id`
(lines 1486-1491). -/
def noUserIdOutcome (username : String) : Outcome :=
  { username := username, success := false, error := some "No user_id available" }

/-- Per-item outcome of the API batch loop (lines 1485-1495). -/
def apiItemOutcome (actApi : String → String → Bool × Option String)
    (u : ApiTarget) : Outcome :=
  match u.user_id with
  | none => noUserIdOutcome u.username
  | some uid => instagram_unfollow_user_api actApi uid u.username

/-- Embedding of `instagram_unfollow_batch_api` (lines 1464-1523). -/
def instagram_unfollow_batch_api (actApi : String → String → Bool × Option String)
    (targets : List ApiTarget) : BatchResult :=
  let results := targets.map (apiItemOutcome actApi)
  let sf := batchCounts results
  { success := sf.2 == 0
    results := results
    summary := { total := targets.length, successful := sf.1, failed := sf.2 } }

/-- Event trace of the API batch loop (lines 1479-1507).  A target with no
`user_id` records its failure outcome and hits `continue` (line 1491), which
jumps past the inter-item sleep; an attempted target sleeps the fixed `delay`
afterwards unless it is the last item (line 1505). -/
def unfollowBatchApiEvents (actApi : String → String → Bool × Option String)
    (delay : ℚ) : List ApiTarget → List BatchEvent
  | [] => []
  | u :: rest =>
    match u.user_id with
    | none => BatchEvent.item (noUserIdOutcome u.username) ::
        unfollowBatchApiEvents actApi delay rest
    | some uid =>
      BatchEvent.item (instagram_unfollow_user_api actApi uid u.username) ::
        (match rest with
         | [] => []
         | _ :: _ => BatchEvent.sleep delay :: unfollowBatchApiEvents actApi delay rest)

/-! ## Deduplication primitive

Shared inner loop of both harvest strategies (lines 367-420, 627-680 and
936-950): walk the sightings of one extraction pass / one page, skip an
element whose handle is empty or already in the seen-set, otherwise add the
handle to the seen-set and append the record.  `u` extracts the handle from
a sighting. -/

def harvestFold {α : Type} (u : α → String) :
    List String → List α → List α → List String × List α
  | seen, acc, [] => (seen, acc)
  | seen, acc, e :: rest =>
    if u e = "" ∨ u e ∈ seen then harvestFold u seen acc rest
    else harvestFold u (u e :: seen) (acc ++ [e]) rest

/-- Accumulator-free form of the dedup walk: the records appended starting
from a given seen-set. -/
def dedupFirst {α : Type} (u : α → String) : List String → List α → List α
  | _, [] => []
  | seen, e :: rest =>
    if u e = "" ∨ u e ∈ seen then dedupFirst u seen rest
    else e :: dedupFirst u (u e :: seen) rest

/-- Per-pass iteration over a sequence of extraction passes, threading the
seen-set and accumulator exactly as the scroll loop does. -/
def collectPasses {α : Type} (u : α → String) :
    List String × List α → List (List α) → List String × List α
  | st, [] => st
  | st, p :: rest => collectPasses u (harvestFold u st.1 st.2 p) rest

theorem harvestFold_append {α : Type} (u : α → String) (l₁ l₂ : List α) :
    ∀ seen acc, harvestFold u seen acc (l₁ ++ l₂) =
      harvestFold u (harvestFold u seen acc l₁).1 (harvestFold u seen acc l₁).2 l₂ := by
  induction l₁ with
  | nil => intro seen acc; rfl
  | cons e rest ih =>
    intro seen acc
    by_cases h : u e = "" ∨ u e ∈ seen
    · simp only [List.cons_append, harvestFold, if_pos h]
      exact ih seen acc
    · simp only [List.cons_append, harvestFold, if_neg h]
      exact ih (u e :: seen) (acc ++ [e])

theorem harvestFold_acc {α : Type} (u : α → String) (l : List α) :
    ∀ seen acc, (harvestFold u seen acc l).2 = acc ++ dedupFirst u seen l := by
  induction l with
  | nil => intro seen acc; simp [harvestFold, dedupFirst]
  | cons e rest ih =>
    intro seen acc
    by_cases h : u e = "" ∨ u e ∈ seen
    · simp only [harvestFold, dedupFirst, if_pos h]
      exact ih seen acc
    · simp only [harvestFold, dedupFirst, if_neg h]
      rw [ih (u e :: seen) (acc ++ [e])]
      simp

theorem harvestFold_seen_mem {α : Type} (u : α → String) (l : List α) :
    ∀ seen acc h, h ∈ (harvestFold u seen acc l).1 ↔
      h ∈ seen ∨ (h ≠ "" ∧ h ∈ l.map u) := by
  induction l with
  | nil =>
    intro seen acc h
    simp [harvestFold]
  | cons e rest ih =>
    intro seen acc h
    by_cases hc : u e = "" ∨ u e ∈ seen
    · simp only [harvestFold, if_pos hc]
      rw [ih seen acc h]
      simp only [List.map_cons, List.mem_cons]
      constructor
      · rintro (hs | ⟨hne, hm⟩)
        · exact Or.inl hs
        · exact Or.inr ⟨hne, Or.inr hm⟩
      · rintro (hs | ⟨hne, hm | hm⟩)
        · exact Or.inl hs
        · rcases hc with hc | hc
          · exact absurd (hm ▸ hc) hne
          · exact Or.inl (hm ▸ hc)
        · exact Or.inr ⟨hne, hm⟩
    · have hc1 : u e ≠ "" := fun h' => hc (Or.inl h')
      simp only [harvestFold, if_neg hc]
      rw [ih (u e :: seen) (acc ++ [e]) h]
      simp only [List.mem_cons, List.map_cons]
      constructor
      · rintro ((he | hs) | ⟨hne, hm⟩)
        · exact Or.inr ⟨he ▸ hc1, Or.inl he⟩
        · exact Or.inl hs
        · exact Or.inr ⟨hne, Or.inr hm⟩
      · rintro (hs | ⟨hne, hm | hm⟩)
        · exact Or.inl (Or.inr hs)
        · exact Or.inl (Or.inl hm)
        · exact Or.inr ⟨hne, hm⟩

theorem harvestFold_acc_mono {α : Type} (u : α → String) (l : List α) :
    ∀ seen acc, acc.length ≤ (harvestFold u seen acc l).2.length := by
  induction l with
  | nil => intro seen acc; simp [harvestFold]
  | cons e rest ih =>
    intro seen acc
    by_cases h : u e = "" ∨ u e ∈ seen
    · simp only [harvestFold, if_pos h]; exact ih seen acc
    · simp only [harvestFold, if_neg h]
      calc acc.length ≤ (acc ++ [e]).length := by simp
        _ ≤ _ := ih (u e :: seen) (acc ++ [e])

theorem harvestFold_acc_grows {α : Type} (u : α → String) (l : List α) :
    ∀ seen acc, (∃ e ∈ l, u e ≠ "" ∧ u e ∉ seen) →
      acc.length < (harvestFold u seen acc l).2.length := by
  induction l with
  | nil => rintro seen acc ⟨e, he, -⟩; exact absurd he (List.not_mem_nil e)
  | cons e₁ rest ih =>
    rintro seen acc ⟨e, he, hne, hnotseen⟩
    by_cases h : u e₁ = "" ∨ u e₁ ∈ seen
    · simp only [harvestFold, if_pos h]
      rcases List.mem_cons.mp he with rfl | hmem
      · rcases h with h | h
        · exact absurd h hne
        · exact absurd h hnotseen
      · exact ih seen acc ⟨e, hmem, hne, hnotseen⟩
    · simp only [harvestFold, if_neg h]
      calc acc.length < (acc ++ [e₁]).length := by simp
        _ ≤ _ := harvestFold_acc_mono u rest (u e₁ :: seen) (acc ++ [e₁])

/-- Every seen-set membership a kept record can have: a record kept by the
dedup walk has a nonempty handle, outside the starting seen-set, and among
the walked sightings. -/
theorem dedupFirst_mem {α : Type} (u : α → String) (l : List α) :
    ∀ seen x, x ∈ (dedupFirst u seen l).map u →
      x ∉ seen ∧ x ≠ "" ∧ x ∈ l.map u := by
  induction l with
  | nil => intro seen x hx; simp [dedupFirst] at hx
  | cons e rest ih =>
    intro seen x hx
    by_cases h : u e = "" ∨ u e ∈ seen
    · rw [dedupFirst, if_pos h] at hx
      obtain ⟨h1, h2, h3⟩ := ih seen x hx
      exact ⟨h1, h2, by simp [h3]⟩
    · push_neg at h
      rw [dedupFirst, if_neg (by push_neg; exact h)] at hx
      simp only [List.map_cons, List.mem_cons] at hx
      rcases hx with rfl | hx
      · exact ⟨h.2, h.1, by simp⟩
      · obtain ⟨h1, h2, h3⟩ := ih (u e :: seen) x hx
        refine ⟨fun hs => h1 (List.mem_cons_of_mem _ hs), h2, by simp [h3]⟩

theorem dedupFirst_nodup {α : Type} (u : α → String) (l : List α) :
    ∀ seen, ((dedupFirst u seen l).map u).Nodup := by
  induction l with
  | nil => intro seen; simp [dedupFirst]
  | cons e rest ih =>
    intro seen
    by_cases h : u e = "" ∨ u e ∈ seen
    · rw [dedupFirst, if_pos h]; exact ih seen
    · rw [dedupFirst, if_neg h]
      simp only [List.map_cons, List.nodup_cons]
      refine ⟨fun hmem => ?_, ih (u e :: seen)⟩
      exact (dedupFirst_mem u rest (u e :: seen) (u e) hmem).1 (List.mem_cons_self _ _)

/-- First-seen attributes win: for a nonempty handle not yet seen, the unique
record the dedup walk keeps for it is exactly the first sighting of that
handle in the walked sequence. -/
theorem dedupFirst_find? {α : Type} (u : α → String) (l : List α) :
    ∀ seen h, h ≠ "" → h ∉ seen →
      (dedupFirst u seen l).find? (fun e => u e == h) =
        l.find? (fun e => u e == h) := by
  induction l with
  | nil => intro seen h _ _; simp [dedupFirst]
  | cons e rest ih =>
    intro seen h hne hnotseen
    by_cases hc : u e = "" ∨ u e ∈ seen
    · rw [dedupFirst, if_pos hc]
      have hne' : (u e == h) = false := by
        apply beq_false_of_ne
        rintro rfl
        rcases hc with hc | hc
        · exact hne hc
        · exact hnotseen hc
      rw [List.find?_cons, hne', ih seen h hne hnotseen]
    · rw [dedupFirst, if_neg hc]
      by_cases heq : u e = h
      · have : (u e == h) = true := beq_iff_eq.mpr heq
        rw [List.find?_cons, this, List.find?_cons, this]
      · have hfalse : (u e == h) = false := beq_false_of_ne heq
        rw [List.find?_cons, hfalse, List.find?_cons, hfalse]
        exact ih (u e :: seen) h hne
          (by simp only [List.mem_cons]; rintro (rfl | hs); exact heq rfl; exact hnotseen hs)

/-- First-seen order: the kept records are ordered by the position of the
first sighting of their handle. -/
theorem dedupFirst_pairwise {α : Type} (u : α → String) (l : List α) :
    ∀ seen, ((dedupFirst u seen l).map u).Pairwise
      (fun a b => (l.map u).indexOf a < (l.map u).indexOf b) := by
  induction l with
  | nil => intro seen; simp [dedupFirst]
  | cons e rest ih =>
    intro seen
    by_cases h : u e = "" ∨ u e ∈ seen
    · rw [dedupFirst, if_pos h]
      refine (ih seen).imp_of_mem ?_
      intro a b ha hb hab
      have hae : a ≠ u e := by
        obtain ⟨h1, h2, -⟩ := dedupFirst_mem u rest seen a ha
        rintro rfl; rcases h with h | h; exact h2 h; exact h1 h
      have hbe : b ≠ u e := by
        obtain ⟨h1, h2, -⟩ := dedupFirst_mem u rest seen b hb
        rintro rfl; rcases h with h | h; exact h2 h; exact h1 h
      simp only [List.map_cons]
      rw [List.indexOf_cons_ne _ (fun hh => hae hh.symm),
        List.indexOf_cons_ne _ (fun hh => hbe hh.symm)]
      omega
    · rw [dedupFirst, if_neg h]
      simp only [List.map_cons, List.pairwise_cons]
      constructor
      · intro b hb
        obtain ⟨h1, -, h3⟩ := dedupFirst_mem u rest (u e :: seen) b hb
        have hbe : b ≠ u e := fun hh => h1 (hh ▸ List.mem_cons_self _ _)
        rw [List.indexOf_cons_self, List.indexOf_cons_ne _ (fun hh => hbe hh.symm)]
        omega
      · refine (ih (u e :: seen)).imp_of_mem ?_
        intro a b ha hb hab
        have hae : a ≠ u e := fun hh =>
          (dedupFirst_mem u rest (u e :: seen) a ha).1 (hh ▸ List.mem_cons_self _ _)
        have hbe : b ≠ u e := fun hh =>
          (dedupFirst_mem u rest (u e :: seen) b hb).1 (hh ▸ List.mem_cons_self _ _)
        rw [List.indexOf_cons_ne _ (fun hh => hae hh.symm),
          List.indexOf_cons_ne _ (fun hh => hbe hh.symm)]
        omega

/-- Running the per-pass collector over a pass sequence is the dedup walk of
the flattened sighting sequence. -/
theorem collectPasses_eq_flatten {α : Type} (u : α → String) (passes : List (List α)) :
    ∀ seen acc, collectPasses u (seen, acc) passes = harvestFold u seen acc passes.flatten := by
  induction passes with
  | nil => intro seen acc; rfl
  | cons p rest ih =>
    intro seen acc
    show collectPasses u (harvestFold u seen acc p) rest = _
    rw [List.flatten_cons, harvestFold_append]
    exact ih (harvestFold u seen acc p).1 (harvestFold u seen acc p).2

/-! ## Rendered-surface harvest (`instagram_get_followers`, lines 258-544)

The virtualized list is abstracted into `surface : Nat → List Entity`, the
sequence of user-link records rendered in the dialog at the t-th extraction
pass (1-based, matching `scroll_attempts`).  Each pass runs the dedup walk
over the rendered records; the loop state and exit conditions mirror lines
351-438 exactly. -/

/-- One harvested record (lines 412-417). -/
structure Entity where
  username : String
  full_name : String
  is_verified : Bool
  profile_pic_url : String
deriving DecidableEq, Repr

/-- Handle extractor for rendered-surface records. -/
def euname : Entity → String := Entity.username

/-- Mutable state of the scroll loop (lines 351-354). -/
structure ScrollState where
  seen : List String
  followers : List Entity
  noNewCount : Nat
  scrollAttempts : Nat
deriving DecidableEq, Repr

/-- Why the scroll loop exited: `endOfList` is the idle-round threshold
(line 428), `safetyCeiling` the hard pass ceiling (line 436). -/
inductive ScrollStop
  | endOfList
  | safetyCeiling
deriving DecidableEq, Repr

/-- `max_no_new_scrolls = 5` (line 355). -/
def maxNoNewScrolls : Nat := 5

/-- The hard ceiling of 500 scroll attempts (line 436). -/
def maxScrollAttempts : Nat := 500

/-- The scroll loop of `instagram_get_followers` (lines 360-512).  Each
iteration increments `scroll_attempts`, dedup-walks the currently rendered
records, and then: if no new user was appended, bumps the idle counter and
exits at the threshold (lines 425-430); otherwise resets the idle counter
(line 432); in either case the hard ceiling on total passes exits next
(lines 435-438).  The `fuel` argument only makes the recursion structural:
it is started at `maxScrollAttempts` and the ceiling test fires before it
can run out. -/
def scrollLoopGo (surface : Nat → List Entity) :
    Nat → ScrollState → ScrollState × ScrollStop
  | 0, st => (st, ScrollStop.safetyCeiling)
  | fuel + 1, st =>
    let t := st.scrollAttempts + 1
    let stepped := harvestFold euname st.seen st.followers (surface t)
    let newUsers := stepped.2.length - st.followers.length
    if newUsers = 0 then
      let nn := st.noNewCount + 1
      if maxNoNewScrolls ≤ nn then
        ({ seen := stepped.1, followers := stepped.2, noNewCount := nn,
           scrollAttempts := t }, ScrollStop.endOfList)
      else if maxScrollAttempts ≤ t then
        ({ seen := stepped.1, followers := stepped.2, noNewCount := nn,
           scrollAttempts := t }, ScrollStop.safetyCeiling)
      else
        scrollLoopGo surface fuel
          { seen := stepped.1, followers := stepped.2, noNewCount := nn,
            scrollAttempts := t }
    else
      if maxScrollAttempts ≤ t then
        ({ seen := stepped.1, followers := stepped.2, noNewCount := 0,
           scrollAttempts := t }, ScrollStop.safetyCeiling)
      else
        scrollLoopGo surface fuel
          { seen := stepped.1, followers := stepped.2, noNewCount := 0,
            scrollAttempts := t }

/-- The loop state before the first pass (lines 351-354). -/
def initScrollState : ScrollState :=
  { seen := [], followers := [], noNewCount := 0, scrollAttempts := 0 }

/-- Result dict of `instagram_get_followers` (lines 526-530): after the loop,
regardless of the exit reason, `success` is True and the collected list is
truncated to `limit`. -/
structure FollowersResult where
  success : Bool
  followers : List Entity
  count : Nat
deriving DecidableEq, Repr

/-- Embedding of `instagram_get_followers` (lines 258-544), scroll loop plus
the truncating return (lines 526-530). -/
def instagram_get_followers (surface : Nat → List Entity) (limit : Nat) :
    FollowersResult :=
  let st := (scrollLoopGo surface maxScrollAttempts initScrollState).1
  { success := true
    followers := st.followers.take limit
    count := (st.followers.take limit).length }

/-- All records rendered over the first `n` passes, in pass order. -/
def passesFlat (surface : Nat → List Entity) (n : Nat) : List Entity :=
  ((List.range n).map (fun k => surface (k + 1))).flatten

/-- The seen-set of the canonical run after `k` completed passes. -/
def seenAfter (surface : Nat → List Entity) (k : Nat) : List String :=
  (harvestFold euname [] [] (passesFlat surface k)).1

/-- The collected list of the canonical run after `k` completed passes. -/
def folAfter (surface : Nat → List Entity) (k : Nat) : List Entity :=
  (harvestFold euname [] [] (passesFlat surface k)).2

theorem passesFlat_succ (surface : Nat → List Entity) (k : Nat) :
    passesFlat surface (k + 1) = passesFlat surface k ++ surface (k + 1) := by
  unfold passesFlat
  rw [List.range_succ, List.map_append, List.flatten_append]
  simp

/-- A pass all of whose rendered handles are empty or already seen leaves the
loop state untouched. -/
theorem harvestFold_idle {α : Type} (u : α → String) (l : List α) :
    ∀ seen acc, (∀ e ∈ l, u e = "" ∨ u e ∈ seen) →
      harvestFold u seen acc l = (seen, acc) := by
  induction l with
  | nil => intro seen acc _; rfl
  | cons e rest ih =>
    intro seen acc hall
    have he := hall e (List.mem_cons_self _ _)
    rw [harvestFold, if_pos he]
    exact ih seen acc (fun x hx => hall x (List.mem_cons_of_mem _ hx))

theorem harvestFold_passes_succ (surface : Nat → List Entity) (k : Nat) :
    harvestFold euname [] [] (passesFlat surface (k + 1)) =
      harvestFold euname (harvestFold euname [] [] (passesFlat surface k)).1
        (harvestFold euname [] [] (passesFlat surface k)).2 (surface (k + 1)) := by
  rw [passesFlat_succ, harvestFold_append]

/-- One loop iteration that found at least one new user and is below the
ceiling: reset the idle counter and continue. -/
theorem scrollLoopGo_step_new (surface : Nat → List Entity) (fuel : Nat)
    (st : ScrollState)
    (hnew : st.followers.length <
      (harvestFold euname st.seen st.followers (surface (st.scrollAttempts + 1))).2.length)
    (hceil : st.scrollAttempts + 1 < 500) :
    scrollLoopGo surface (fuel + 1) st = scrollLoopGo surface fuel
      { seen := (harvestFold euname st.seen st.followers (surface (st.scrollAttempts + 1))).1
        followers := (harvestFold euname st.seen st.followers (surface (st.scrollAttempts + 1))).2
        noNewCount := 0
        scrollAttempts := st.scrollAttempts + 1 } := by
  simp only [scrollLoopGo]
  rw [if_neg (Nat.sub_ne_zero_of_lt hnew)]
  rw [if_neg (show ¬(maxScrollAttempts ≤ st.scrollAttempts + 1) by
    simp only [maxScrollAttempts]; omega)]

/-- One loop iteration whose pass rendered only empty or already-seen handles
while the idle counter stays below the threshold and the ceiling is not hit:
bump the idle counter and continue. -/
theorem scrollLoopGo_step_idle (surface : Nat → List Entity) (fuel : Nat)
    (st : ScrollState)
    (hidle : harvestFold euname st.seen st.followers (surface (st.scrollAttempts + 1)) =
      (st.seen, st.followers))
    (hnn : st.noNewCount + 1 < 5)
    (hceil : st.scrollAttempts + 1 < 500) :
    scrollLoopGo surface (fuel + 1) st = scrollLoopGo surface fuel
      { seen := st.seen, followers := st.followers
        noNewCount := st.noNewCount + 1, scrollAttempts := st.scrollAttempts + 1 } := by
  simp only [scrollLoopGo, hidle]
  rw [if_pos (by omega : st.followers.length - st.followers.length = 0)]
  rw [if_neg (show ¬(maxNoNewScrolls ≤ st.noNewCount + 1) by
    simp only [maxNoNewScrolls]; omega)]
  rw [if_neg (show ¬(maxScrollAttempts ≤ st.scrollAttempts + 1) by
    simp only [maxScrollAttempts]; omega)]

/-- One loop iteration whose idle pass pushes the idle counter to the
threshold: the loop exits reporting end of list. -/
theorem scrollLoopGo_step_idle_exit (surface : Nat → List Entity) (fuel : Nat)
    (st : ScrollState)
    (hidle : harvestFold euname st.seen st.followers (surface (st.scrollAttempts + 1)) =
      (st.seen, st.followers))
    (hnn : st.noNewCount + 1 = 5) :
    scrollLoopGo surface (fuel + 1) st =
      ({ seen := st.seen, followers := st.followers
         noNewCount := st.noNewCount + 1, scrollAttempts := st.scrollAttempts + 1 },
       ScrollStop.endOfList) := by
  simp only [scrollLoopGo, hidle]
  rw [if_pos (by omega : st.followers.length - st.followers.length = 0)]
  rw [if_pos (show maxNoNewScrolls ≤ st.noNewCount + 1 by
    simp only [maxNoNewScrolls]; omega)]

/-- One loop iteration that found a new user at the 500th pass: the loop
exits at the safety ceiling. -/
theorem scrollLoopGo_step_new_ceiling (surface : Nat → List Entity) (fuel : Nat)
    (st : ScrollState)
    (hnew : st.followers.length <
      (harvestFold euname st.seen st.followers (surface (st.scrollAttempts + 1))).2.length)
    (hceil : st.scrollAttempts + 1 = 500) :
    scrollLoopGo surface (fuel + 1) st =
      ({ seen := (harvestFold euname st.seen st.followers (surface (st.scrollAttempts + 1))).1
         followers := (harvestFold euname st.seen st.followers (surface (st.scrollAttempts + 1))).2
         noNewCount := 0
         scrollAttempts := st.scrollAttempts + 1 }, ScrollStop.safetyCeiling) := by
  simp only [scrollLoopGo]
  rw [if_neg (Nat.sub_ne_zero_of_lt hnew)]
  rw [if_pos (show maxScrollAttempts ≤ st.scrollAttempts + 1 by
    simp only [maxScrollAttempts]; omega)]

theorem mem_passesFlat_map (surface : Nat → List Entity) (k : Nat) (x : String) :
    x ∈ (passesFlat surface k).map euname ↔
      ∃ j, j < k ∧ x ∈ (surface (j + 1)).map euname := by
  unfold passesFlat
  constructor
  · intro hx
    obtain ⟨e, he, rfl⟩ := List.mem_map.mp hx
    obtain ⟨s, hs, hes⟩ := List.mem_flatten.mp he
    obtain ⟨j, hj, rfl⟩ := List.mem_map.mp hs
    exact ⟨j, List.mem_range.mp hj, List.mem_map_of_mem euname hes⟩
  · rintro ⟨j, hj, hx⟩
    obtain ⟨e, he, rfl⟩ := List.mem_map.mp hx
    refine List.mem_map_of_mem euname (List.mem_flatten.mpr ⟨surface (j + 1), ?_, he⟩)
    exact List.mem_map_of_mem _ (List.mem_range.mpr hj)

/-- A pass offering a handle never rendered on an earlier pass strictly grows
the collected list. -/
theorem fresh_pass_grows (surface : Nat → List Entity) (k : Nat)
    (hfresh : ∃ e ∈ surface (k + 1), euname e ≠ "" ∧
      ∀ t', 1 ≤ t' → t' < k + 1 → euname e ∉ (surface t').map euname) :
    (harvestFold euname [] [] (passesFlat surface k)).2.length <
      (harvestFold euname (harvestFold euname [] [] (passesFlat surface k)).1
        (harvestFold euname [] [] (passesFlat surface k)).2 (surface (k + 1))).2.length := by
  obtain ⟨e, he, hne, hfr⟩ := hfresh
  apply harvestFold_acc_grows
  refine ⟨e, he, hne, fun hmem => ?_⟩
  rw [harvestFold_seen_mem] at hmem
  rcases hmem with h | ⟨-, h⟩
  · exact absurd h (List.not_mem_nil _)
  · obtain ⟨j, hj, hx⟩ := (mem_passesFlat_map surface k _).mp h
    exact hfr (j + 1) (by omega) (by omega) hx

theorem seenFolAfter_succ (surface : Nat → List Entity) (k : Nat) :
    harvestFold euname (seenAfter surface k) (folAfter surface k) (surface (k + 1)) =
      (seenAfter surface (k + 1), folAfter surface (k + 1)) := by
  unfold seenAfter folAfter
  rw [passesFlat_succ, harvestFold_append]

/-- While every pass up to the plateau reveals a fresh handle, the loop just
advances: running from the state after `k` passes reaches the state after `P`
passes. -/
theorem scroll_phase1 (surface : Nat → List Entity) (P : Nat) (hceil : P + 5 ≤ 500)
    (hnew : ∀ t, 1 ≤ t → t ≤ P → ∃ e ∈ surface t, euname e ≠ "" ∧
      ∀ t', 1 ≤ t' → t' < t → euname e ∉ (surface t').map euname) :
    ∀ d k, k + d = P →
      scrollLoopGo surface (500 - k)
        { seen := seenAfter surface k, followers := folAfter surface k,
          noNewCount := 0, scrollAttempts := k } =
      scrollLoopGo surface (500 - P)
        { seen := seenAfter surface P, followers := folAfter surface P,
          noNewCount := 0, scrollAttempts := P } := by
  intro d
  induction d with
  | zero =>
    intro k hk
    have hkP : k = P := by omega
    subst hkP; rfl
  | succ d ih =>
    intro k hk
    have h500 : 500 - k = (500 - (k + 1)) + 1 := by omega
    have hgrow : (folAfter surface k).length <
        (harvestFold euname (seenAfter surface k) (folAfter surface k)
          (surface (k + 1))).2.length :=
      fresh_pass_grows surface k (hnew (k + 1) (by omega) (by omega))
    rw [h500, scrollLoopGo_step_new surface (500 - (k + 1))
      { seen := seenAfter surface k, followers := folAfter surface k,
        noNewCount := 0, scrollAttempts := k } hgrow (by show k + 1 < 500; omega)]
    simp only [seenFolAfter_succ surface k]
    exact ih (k + 1) (by omega)

/-- Once every later pass renders only already-seen (or empty) handles, five
idle passes exit the loop at the end-of-list threshold. -/
theorem scroll_phase2 (surface : Nat → List Entity) (seen : List String)
    (fol : List Entity) :
    ∀ j, 1 ≤ j → j ≤ 5 → ∀ a, a + j ≤ 500 →
      (∀ t, a < t → ∀ e ∈ surface t, euname e = "" ∨ euname e ∈ seen) →
      ∀ fuel, j ≤ fuel →
      scrollLoopGo surface fuel
        { seen := seen, followers := fol, noNewCount := 5 - j, scrollAttempts := a } =
        ({ seen := seen, followers := fol, noNewCount := 5, scrollAttempts := a + j },
          ScrollStop.endOfList) := by
  intro j
  induction j with
  | zero => omega
  | succ j ih =>
    intro _ hj5 a ha hall fuel hfuel
    match fuel, hfuel with
    | f + 1, _ =>
      have hidle : harvestFold euname seen fol (surface (a + 1)) = (seen, fol) :=
        harvestFold_idle euname _ seen fol (hall (a + 1) (by omega))
      by_cases hj : j = 0
      · subst hj
        rw [scrollLoopGo_step_idle_exit surface f
          { seen := seen, followers := fol, noNewCount := 5 - 1, scrollAttempts := a }
          hidle (by show 5 - 1 + 1 = 5; omega)]
      · rw [scrollLoopGo_step_idle surface f
          { seen := seen, followers := fol, noNewCount := 5 - (j + 1), scrollAttempts := a }
          hidle (by show 5 - (j + 1) + 1 < 5; omega) (by show a + 1 < 500; omega)]
        have h1 : 5 - (j + 1) + 1 = 5 - j := by omega
        simp only [h1]
        rw [ih (by omega) (by omega) (a + 1) (by omega)
          (fun t ht => hall t (by omega)) f (by omega)]
        rw [show a + 1 + j = a + (j + 1) by omega]

set_option maxRecDepth 2000 in
/-- A source revealing a never-before-rendered handle on every pass drives
the loop all the way to the 500-pass safety ceiling. -/
theorem scroll_ceiling_go (surface : Nat → List Entity)
    (hnew : ∀ t, 1 ≤ t → ∃ e ∈ surface t, euname e ≠ "" ∧
      ∀ t', 1 ≤ t' → t' < t → euname e ∉ (surface t').map euname) :
    ∀ d k, k + d = 500 → 1 ≤ d →
      scrollLoopGo surface d
        { seen := seenAfter surface k, followers := folAfter surface k,
          noNewCount := 0, scrollAttempts := k } =
        ({ seen := seenAfter surface 500, followers := folAfter surface 500,
           noNewCount := 0, scrollAttempts := 500 }, ScrollStop.safetyCeiling) := by
  intro d
  induction d with
  | zero => omega
  | succ d ih =>
    intro k hk _
    have hgrow : (folAfter surface k).length <
        (harvestFold euname (seenAfter surface k) (folAfter surface k)
          (surface (k + 1))).2.length :=
      fresh_pass_grows surface k (hnew (k + 1) (by omega))
    by_cases hd : d = 0
    · subst hd
      have hk499 : k = 499 := by omega
      subst hk499
      rw [scrollLoopGo_step_new_ceiling surface 0
        { seen := seenAfter surface 499, followers := folAfter surface 499,
          noNewCount := 0, scrollAttempts := 499 } hgrow (by show 499 + 1 = 500; omega)]
      simp only [seenFolAfter_succ surface 499]
    · rw [scrollLoopGo_step_new surface d
        { seen := seenAfter surface k, followers := folAfter surface k,
          noNewCount := 0, scrollAttempts := k } hgrow (by show k + 1 < 500; omega)]
      simp only [seenFolAfter_succ surface k]
      exact ih (k + 1) (by omega) (by omega)

/-! ## Structured-endpoint harvest (`instagram_get_followers_api`, lines 813-993)

The endpoint is abstracted into the finite sequence of page responses it
serves along the cursor chain: request `k` consumes the k-th element of
`pages`.  A request the source can no longer serve corresponds to an
exception during pagination, which the Python catches and turns into a break
returning the collected list (lines 965-967). -/

/-- One user object inside a page response, with the fields the code copies
into its result records (lines 941-950). -/
structure ApiUserRecord where
  username : String
  full_name : String
  is_verified : Bool
  profile_pic_url : String
  pk : String
  is_private : Bool
  has_anonymous_profile_picture : Bool
  latest_reel_media : Nat
deriving DecidableEq, Repr

/-- Handle extractor for structured-endpoint records.  A missing username in
the JSON is the empty string, which the code treats as falsy (line 938). -/
def auname : ApiUserRecord → String := ApiUserRecord.username

/-- One page response of the friendships endpoint (lines 923-954). -/
structure ApiPage where
  status : Nat
  users : List ApiUserRecord
  has_more : Bool
  next_max_id : Option String
deriving DecidableEq, Repr

/-- Python truthiness of the `next_max_id` value (line 958): `None` and the
empty string are both falsy. -/
def cursorTruthy : Option String → Bool
  | none => false
  | some s => !(s == "")

/-- Observable result of one `instagram_get_followers_api` call:
`apiRequests` counts structured page requests issued, `fallbackInvocations`
counts calls of the rendered-surface scraper `instagram_get_followers`
(which itself issues no structured requests), `followers` is the value of
the local accumulator when the function stopped paginating (discarded if a
fallback replaced it), and `completedViaApi` says whether the function
returned its own API-collected result rather than the fallback's. -/
structure ApiRun where
  apiRequests : Nat
  fallbackInvocations : Nat
  followers : List ApiUserRecord
  completedViaApi : Bool
deriving DecidableEq, Repr

/-- The pagination loop of `instagram_get_followers_api` (lines 889-967):
`while len(followers) < limit`, request the next page; a non-200 status
abandons the API strategy and invokes the HTML scraper (lines 908-921);
otherwise dedup-walk the page's users (lines 936-950) and stop unless
`has_more` and a truthy `next_max_id` (lines 953-960). -/
def apiPaginateGo (limit : Nat) :
    List ApiPage → List String → List ApiUserRecord → Nat → ApiRun
  | [], _, followers, requests =>
    if limit ≤ followers.length then
      { apiRequests := requests, fallbackInvocations := 0,
        followers := followers, completedViaApi := true }
    else
      { apiRequests := requests + 1, fallbackInvocations := 0,
        followers := followers, completedViaApi := true }
  | p :: rest, seen, followers, requests =>
    if limit ≤ followers.length then
      { apiRequests := requests, fallbackInvocations := 0,
        followers := followers, completedViaApi := true }
    else if p.status ≠ 200 then
      { apiRequests := requests + 1, fallbackInvocations := 1,
        followers := followers, completedViaApi := false }
    else
      let stepped := harvestFold auname seen followers p.users
      if p.has_more && cursorTruthy p.next_max_id then
        apiPaginateGo limit rest stepped.1 stepped.2 (requests + 1)
      else
        { apiRequests := requests + 1, fallbackInvocations := 0,
          followers := stepped.2, completedViaApi := true }

/-- Embedding of `instagram_get_followers_api` (lines 813-993): a missing
user id (lines 860-865) or a missing csrftoken cookie (lines 874-885) falls
back to the HTML scraper before any page request; otherwise the pagination
loop runs. -/
def instagram_get_followers_api (userId : Option String)
    (csrfToken : Option String) (limit : Nat) (pages : List ApiPage) : ApiRun :=
  match userId with
  | none => { apiRequests := 0, fallbackInvocations := 1, followers := [],
              completedViaApi := false }
  | some _ =>
    match csrfToken with
    | none => { apiRequests := 0, fallbackInvocations := 1, followers := [],
                completedViaApi := false }
    | some _ => apiPaginateGo limit pages [] [] 0

/-- The list the API path returns to its caller: the accumulator truncated
to the limit (line 979). -/
def apiReturnedFollowers (r : ApiRun) (limit : Nat) : List ApiUserRecord :=
  r.followers.take limit

/-- All users offered along the cursor chain. -/
def pagesUsers (pages : List ApiPage) : List ApiUserRecord :=
  (pages.map ApiPage.users).flatten

/-- A well-formed cursor chain: every page except the last advertises a
continuation, so the offered users are exactly the reachable ones. -/
def chainOk : List ApiPage → Bool
  | [] => true
  | [_] => true
  | p :: q :: rest => (p.has_more && cursorTruthy p.next_max_id) && chainOk (q :: rest)

theorem pagesUsers_take_succ (p : ApiPage) (rest : List ApiPage) (k : Nat) :
    pagesUsers ((p :: rest).take (k + 1)) = p.users ++ pagesUsers (rest.take k) := by
  simp [pagesUsers]

/-- On an all-success, well-formed cursor chain the pagination loop never
falls back: it completes via the API with the dedup walk of the users of the
pages it consumed, and it stops only once the limit is reached or the chain
is exhausted. -/
theorem apiPaginateGo_ok (limit : Nat) :
    ∀ (pages : List ApiPage) (c : List ApiUserRecord) (requests : Nat),
      (∀ p ∈ pages, p.status = 200) → chainOk pages = true →
      (apiPaginateGo limit pages (harvestFold auname [] [] c).1
        (harvestFold auname [] [] c).2 requests).completedViaApi = true ∧
      (apiPaginateGo limit pages (harvestFold auname [] [] c).1
        (harvestFold auname [] [] c).2 requests).fallbackInvocations = 0 ∧
      ∃ k, k ≤ pages.length ∧
        (apiPaginateGo limit pages (harvestFold auname [] [] c).1
          (harvestFold auname [] [] c).2 requests).followers =
          (harvestFold auname [] [] (c ++ pagesUsers (pages.take k))).2 ∧
        (limit ≤ (apiPaginateGo limit pages (harvestFold auname [] [] c).1
          (harvestFold auname [] [] c).2 requests).followers.length ∨
          k = pages.length) := by
  intro pages
  induction pages with
  | nil =>
    intro c requests _ _
    simp only [apiPaginateGo]
    by_cases hl : limit ≤ (harvestFold auname [] [] c).2.length
    · rw [if_pos hl]
      exact ⟨rfl, rfl, 0, by simp, by simp [pagesUsers], Or.inr rfl⟩
    · rw [if_neg hl]
      exact ⟨rfl, rfl, 0, by simp, by simp [pagesUsers], Or.inr rfl⟩
  | cons p rest ih =>
    intro c requests hall hchain
    have hp200 : p.status = 200 := hall p (List.mem_cons_self _ _)
    simp only [apiPaginateGo]
    by_cases hl : limit ≤ (harvestFold auname [] [] c).2.length
    · rw [if_pos hl]
      refine ⟨rfl, rfl, 0, by omega, by simp [pagesUsers], Or.inl hl⟩
    · rw [if_neg hl, if_neg (by simp [hp200])]
      have hstep : harvestFold auname (harvestFold auname [] [] c).1
          (harvestFold auname [] [] c).2 p.users =
          harvestFold auname [] [] (c ++ p.users) := by
        rw [harvestFold_append]
      by_cases hmore : (p.has_more && cursorTruthy p.next_max_id) = true
      · rw [if_pos hmore]
        have hchain' : chainOk rest = true := by
          cases rest with
          | nil => rfl
          | cons q rest' =>
            have := hchain
            simp only [chainOk, Bool.and_eq_true] at this
            exact this.2
        have hrec := ih (c ++ p.users) (requests + 1)
          (fun q hq => hall q (List.mem_cons_of_mem _ hq)) hchain'
        rw [hstep] at *
        obtain ⟨h1, h2, k, hk, hfol, hdisj⟩ := hrec
        refine ⟨h1, h2, k + 1, by simpa using hk, ?_, ?_⟩
        · rw [hfol, pagesUsers_take_succ, List.append_assoc]
        · rcases hdisj with h | h
          · exact Or.inl h
          · exact Or.inr (by simp [h])
      · rw [if_neg hmore]
        have hrest : rest = [] := by
          cases rest with
          | nil => rfl
          | cons q rest' =>
            exfalso
            simp only [chainOk, Bool.and_eq_true] at hchain
            exact hmore (by simp [hchain.1.1, hchain.1.2])
        subst hrest
        refine ⟨rfl, rfl, 1, by simp, ?_, Or.inr (by simp)⟩
        show (harvestFold auname (harvestFold auname [] [] c).1
          (harvestFold auname [] [] c).2 p.users).2 = _
        rw [hstep]
        simp [pagesUsers]

/-! ## Trace lemmas for the batch executors -/

theorem itemsIn_unfollowBatchEvents (act : String → Bool × Option String)
    (rand : Nat → ℚ) :
    ∀ (us : List String) (i : Nat),
      itemsIn (unfollowBatchEvents act rand i us) =
        us.map (instagram_unfollow_user act)
  | [], _ => rfl
  | [_], _ => rfl
  | u :: v :: rest, i => by
    simp only [unfollowBatchEvents, itemsIn, List.filterMap_cons, List.map_cons]
    have := itemsIn_unfollowBatchEvents act rand (v :: rest) (i + 1)
    simp only [itemsIn] at this
    simp [this]

theorem sleepsIn_unfollowBatchEvents (act : String → Bool × Option String)
    (rand : Nat → ℚ) :
    ∀ (us : List String) (i : Nat),
      sleepsIn (unfollowBatchEvents act rand i us) =
        (List.range (us.length - 1)).map (fun k => rand (i + k))
  | [], _ => by simp [unfollowBatchEvents, sleepsIn]
  | [_], _ => by simp [unfollowBatchEvents, sleepsIn]
  | u :: v :: rest, i => by
    simp only [unfollowBatchEvents, sleepsIn, List.filterMap_cons]
    have := sleepsIn_unfollowBatchEvents act rand (v :: rest) (i + 1)
    simp only [sleepsIn] at this
    simp only [this, List.length_cons, Nat.add_sub_cancel]
    rw [List.range_succ_eq_map, List.map_cons, List.map_map]
    refine congrArg₂ _ (by simp) ?_
    refine List.map_congr_left ?_
    intro k _
    show rand (i + 1 + k) = rand (i + Nat.succ k)
    exact congrArg rand (by omega)

theorem alternation_unfollowBatchEvents (act : String → Bool × Option String)
    (rand : Nat → ℚ) :
    ∀ (us : List String) (i : Nat),
      List.Chain' (fun a b => isItemEvent a ≠ isItemEvent b)
        (unfollowBatchEvents act rand i us) ∧
      (unfollowBatchEvents act rand i us).head?.map isItemEvent =
        us.head?.map (fun _ => true)
  | [], _ => ⟨List.chain'_nil, rfl⟩
  | [_], _ => ⟨List.chain'_singleton _, rfl⟩
  | u :: v :: rest, i => by
    obtain ⟨hchain, hhead⟩ :=
      alternation_unfollowBatchEvents act rand (v :: rest) (i + 1)
    constructor
    · simp only [unfollowBatchEvents]
      refine List.chain'_cons'.mpr ⟨?_, List.chain'_cons'.mpr ⟨?_, hchain⟩⟩
      · intro y hy
        simp only [List.head?_cons, Option.mem_def, Option.some.injEq] at hy
        subst hy
        simp [isItemEvent]
      · intro y hy
        rcases hmem : (unfollowBatchEvents act rand (i + 1) (v :: rest)).head? with _ | z
        · rw [hmem] at hy
          exact absurd hy (by simp)
        · rw [hmem] at hy hhead
          simp only [Option.mem_def, Option.some.injEq] at hy
          subst hy
          simp only [List.head?_cons] at hhead
          have hz : isItemEvent z = true := by simpa using hhead
          simp only [isItemEvent]
          exact fun hcon => Bool.false_ne_true (hcon.trans hz)
    · rfl

theorem itemsIn_unfollowBatchApiEvents (actApi : String → String → Bool × Option String)
    (delay : ℚ) :
    ∀ ts : List ApiTarget,
      itemsIn (unfollowBatchApiEvents actApi delay ts) =
        ts.map (apiItemOutcome actApi)
  | [] => rfl
  | u :: rest => by
    have ih := itemsIn_unfollowBatchApiEvents actApi delay rest
    rcases hu : u.user_id with _ | uid
    · simp only [unfollowBatchApiEvents, hu, itemsIn, List.filterMap_cons, List.map_cons]
      simp only [itemsIn] at ih
      simp [ih, apiItemOutcome, hu]
    · cases rest with
      | nil => simp [unfollowBatchApiEvents, hu, itemsIn, apiItemOutcome]
      | cons w rest' =>
        simp only [unfollowBatchApiEvents, hu, itemsIn, List.filterMap_cons,
          List.map_cons]
        simp only [itemsIn, unfollowBatchApiEvents] at ih
        simp [ih, apiItemOutcome, hu]

theorem sleepsIn_unfollowBatchApiEvents_all_ids
    (actApi : String → String → Bool × Option String) (delay : ℚ) :
    ∀ ts : List ApiTarget, (∀ u ∈ ts, u.user_id.isSome = true) →
      sleepsIn (unfollowBatchApiEvents actApi delay ts) =
        List.replicate (ts.length - 1) delay
  | [], _ => rfl
  | u :: rest, hall => by
    have hu := hall u (List.mem_cons_self _ _)
    rcases hid : u.user_id with _ | uid
    · rw [hid] at hu; simp at hu
    · have ih := sleepsIn_unfollowBatchApiEvents_all_ids actApi delay rest
        (fun w hw => hall w (List.mem_cons_of_mem _ hw))
      cases rest with
      | nil => simp [unfollowBatchApiEvents, hid, sleepsIn]
      | cons w rest' =>
        simp only [unfollowBatchApiEvents, hid, sleepsIn, List.filterMap_cons]
        simp only [sleepsIn, unfollowBatchApiEvents] at ih
        simp only [List.length_cons, Nat.add_sub_cancel, List.replicate_succ]
        simp [ih]

theorem apiItemOutcome_username (actApi : String → String → Bool × Option String)
    (u : ApiTarget) : (apiItemOutcome actApi u).username = u.username := by
  rcases h : u.user_id with _ | uid <;>
    simp [apiItemOutcome, h, noUserIdOutcome, instagram_unfollow_user_api]

theorem batchCounts_sum (l : List Outcome) :
    (batchCounts l).1 + (batchCounts l).2 = l.length := by
  induction l with
  | nil => rfl
  | cons o rest ih =>
    by_cases h : o.success <;> simp [batchCounts, h] <;> omega

theorem getLast_item (act : String → Bool × Option String) (rand : Nat → ℚ) :
    ∀ (us : List String) {i : Nat} {e : BatchEvent},
      (unfollowBatchEvents act rand i us).getLast? = some e → isItemEvent e = true
  | [], _, _ => by simp [unfollowBatchEvents]
  | [u], _, _ => by
    intro h
    simp only [unfollowBatchEvents, List.getLast?_singleton, Option.some.injEq] at h
    subst h
    rfl
  | u :: v :: rest, i, e => by
    intro h
    have hexp : unfollowBatchEvents act rand i (u :: v :: rest) =
        BatchEvent.item (instagram_unfollow_user act u) ::
          BatchEvent.sleep (rand i) ::
            unfollowBatchEvents act rand (i + 1) (v :: rest) := rfl
    rw [hexp, List.getLast?_cons_cons] at h
    cases rest with
    | nil =>
      simp only [unfollowBatchEvents, List.getLast?_cons_cons,
        List.getLast?_singleton, Option.some.injEq] at h
      subst h
      rfl
    | cons w rest' =>
      have hexp2 : unfollowBatchEvents act rand (i + 1) (v :: w :: rest') =
          BatchEvent.item (instagram_unfollow_user act v) ::
            BatchEvent.sleep (rand (i + 1)) ::
              unfollowBatchEvents act rand (i + 2) (w :: rest') := rfl
      rw [hexp2, List.getLast?_cons_cons, ← hexp2] at h
      exact getLast_item act rand (v :: w :: rest') h

/-! ## Claim theorems -/

/-- C1: for every input list of target handles, each batch unfollow executor
(`instagram_unfollow_batch` and `instagram_unfollow_batch_api`) returns
exactly one Outcome per input handle, in input order — the i-th outcome
carries the i-th input handle — and, since the per-item action `act`/`actApi`
is universally quantified (covering any mix of failures), a failing item
never halts or reorders the processing of the remaining items; the functions
are total, so the call never fails wholesale. -/
theorem unfollow_batch_one_outcome_per_input
    (act : String → Bool × Option String)
    (actApi : String → String → Bool × Option String)
    (usernames : List String) (targets : List ApiTarget) :
    (instagram_unfollow_batch act usernames).results.map Outcome.username = usernames ∧
    (instagram_unfollow_batch act usernames).results.length = usernames.length ∧
    (instagram_unfollow_batch_api actApi targets).results.map Outcome.username =
      targets.map ApiTarget.username ∧
    (instagram_unfollow_batch_api actApi targets).results.length = targets.length := by
  refine ⟨?_, ?_, ?_, ?_⟩
  · show (usernames.map (instagram_unfollow_user act)).map Outcome.username = _
    rw [List.map_map]
    have hid : (Outcome.username ∘ instagram_unfollow_user act) = fun u => u := rfl
    rw [hid, List.map_id']
  · show (usernames.map (instagram_unfollow_user act)).length = _
    exact List.length_map _ _
  · show (targets.map (apiItemOutcome actApi)).map Outcome.username = _
    rw [List.map_map]
    exact List.map_congr_left (fun u _ => apiItemOutcome_username actApi u)
  · show (targets.map (apiItemOutcome actApi)).length = _
    exact List.length_map _ _

/-- C10: every batch unfollow result has `summary.total` equal to the number
of input handles, `total = successful + failed`, a results list of exactly
`total` entries, and an aggregate `success` flag that is true iff `failed`
is zero — for both executors. -/
theorem unfollow_batch_summary_invariants
    (act : String → Bool × Option String)
    (actApi : String → String → Bool × Option String)
    (usernames : List String) (targets : List ApiTarget) :
    (instagram_unfollow_batch act usernames).summary.total = usernames.length ∧
    (instagram_unfollow_batch act usernames).summary.total =
      (instagram_unfollow_batch act usernames).summary.successful +
      (instagram_unfollow_batch act usernames).summary.failed ∧
    (instagram_unfollow_batch act usernames).results.length =
      (instagram_unfollow_batch act usernames).summary.total ∧
    ((instagram_unfollow_batch act usernames).success = true ↔
      (instagram_unfollow_batch act usernames).summary.failed = 0) ∧
    (instagram_unfollow_batch_api actApi targets).summary.total = targets.length ∧
    (instagram_unfollow_batch_api actApi targets).summary.total =
      (instagram_unfollow_batch_api actApi targets).summary.successful +
      (instagram_unfollow_batch_api actApi targets).summary.failed ∧
    (instagram_unfollow_batch_api actApi targets).results.length =
      (instagram_unfollow_batch_api actApi targets).summary.total ∧
    ((instagram_unfollow_batch_api actApi targets).success = true ↔
      (instagram_unfollow_batch_api actApi targets).summary.failed = 0) := by
  refine ⟨rfl, ?_, ?_, ?_, rfl, ?_, ?_, ?_⟩
  · show usernames.length = (batchCounts (usernames.map (instagram_unfollow_user act))).1 +
      (batchCounts (usernames.map (instagram_unfollow_user act))).2
    rw [batchCounts_sum, List.length_map]
  · show (usernames.map (instagram_unfollow_user act)).length = usernames.length
    exact List.length_map _ _
  · show ((batchCounts (usernames.map (instagram_unfollow_user act))).2 == 0) = true ↔ _
    exact beq_iff_eq
  · show targets.length = (batchCounts (targets.map (apiItemOutcome actApi))).1 +
      (batchCounts (targets.map (apiItemOutcome actApi))).2
    rw [batchCounts_sum, List.length_map]
  · show (targets.map (apiItemOutcome actApi)).length = targets.length
    exact List.length_map _ _
  · show ((batchCounts (targets.map (apiItemOutcome actApi))).2 == 0) = true ↔ _
    exact beq_iff_eq

/-- Concrete API batch input with a first target lacking a `user_id`. -/
def c2Targets : List ApiTarget :=
  [{ username := "alice", user_id := none }, { username := "bob", user_id := some "17" }]

/-- C2 counterexample: in the API batch executor, a two-item batch whose
first item is skipped for a missing `user_id` produces two outcomes but NO
sleep at all between the two consecutive items — the `continue` at line 1491
jumps past the inter-item delay — refuting the claim that the delay is never
skipped for any non-final item. -/
theorem unfollow_batch_api_skip_has_no_delay :
    (itemsIn (unfollowBatchApiEvents (fun _ _ => (true, none)) 3 c2Targets)).length = 2 ∧
    sleepsIn (unfollowBatchApiEvents (fun _ _ => (true, none)) 3 c2Targets) = [] := by
  exact ⟨rfl, rfl⟩

/-- C2 (amended): in the rendered-surface batch executor
(`instagram_unfollow_batch`), between every pair of consecutive items —
including failed items — exactly one sleep occurs, its duration drawn from
the sampler and hence lying in the configured `[minDelay, maxDelay]` range,
and no delay occurs after the last item (traces alternate item/sleep,
starting and ending with an item).  In the API batch executor the delay is a
fixed configured value and the same between-items discipline holds only when
every target carries a `user_id`; a target skipped for a missing `user_id`
proceeds to the next item with no delay (see the counterexample). -/
theorem unfollow_batch_delay_discipline
    (act : String → Bool × Option String) (rand : Nat → ℚ) (mn mx : ℚ)
    (actApi : String → String → Bool × Option String) (delay : ℚ)
    (usernames : List String) (targets : List ApiTarget)
    (hr : ∀ i, mn ≤ rand i ∧ rand i ≤ mx)
    (hids : ∀ u ∈ targets, u.user_id.isSome = true) :
    itemsIn (unfollowBatchEvents act rand 0 usernames) =
      usernames.map (instagram_unfollow_user act) ∧
    sleepsIn (unfollowBatchEvents act rand 0 usernames) =
      (List.range (usernames.length - 1)).map rand ∧
    (∀ d ∈ sleepsIn (unfollowBatchEvents act rand 0 usernames), mn ≤ d ∧ d ≤ mx) ∧
    List.Chain' (fun a b => isItemEvent a ≠ isItemEvent b)
      (unfollowBatchEvents act rand 0 usernames) ∧
    (∀ e, (unfollowBatchEvents act rand 0 usernames).getLast? = some e →
      isItemEvent e = true) ∧
    itemsIn (unfollowBatchApiEvents actApi delay targets) =
      targets.map (apiItemOutcome actApi) ∧
    sleepsIn (unfollowBatchApiEvents actApi delay targets) =
      List.replicate (targets.length - 1) delay := by
  have hsleeps := sleepsIn_unfollowBatchEvents act rand usernames 0
  refine ⟨itemsIn_unfollowBatchEvents act rand usernames 0, ?_, ?_, ?_, ?_, ?_, ?_⟩
  · rw [hsleeps]
    exact List.map_congr_left (fun k _ => congrArg rand (Nat.zero_add k))
  · intro d hd
    rw [hsleeps] at hd
    obtain ⟨k, -, rfl⟩ := List.mem_map.mp hd
    exact hr (0 + k)
  · exact (alternation_unfollowBatchEvents act rand usernames 0).1
  · exact fun e => getLast_item act rand usernames
  · exact itemsIn_unfollowBatchApiEvents actApi delay targets
  · exact sleepsIn_unfollowBatchApiEvents_all_ids actApi delay targets hids

/-- C2 witness: the amended theorem applied to a concrete three-item batch
with an in-range sampler and an all-ids API batch. -/
theorem unfollow_batch_delay_discipline_witness :
    sleepsIn (unfollowBatchEvents (fun _ => (true, none)) (fun _ => (45 : ℚ)) 0
      ["a", "b", "c"]) = (List.range 2).map (fun _ => (45 : ℚ)) ∧
    sleepsIn (unfollowBatchApiEvents (fun _ _ => (true, none)) 3
      [⟨"a", some "1"⟩, ⟨"b", some "2"⟩, ⟨"c", some "3"⟩]) = List.replicate 2 3 := by
  have h := unfollow_batch_delay_discipline (fun _ => (true, none))
    (fun _ => (45 : ℚ)) 30 60 (fun _ _ => (true, none)) 3 ["a", "b", "c"]
    [⟨"a", some "1"⟩, ⟨"b", some "2"⟩, ⟨"c", some "3"⟩]
    (fun _ => ⟨by norm_num, by norm_num⟩) (by decide)
  exact ⟨h.2.1, h.2.2.2.2.2.2⟩

/-- C3: for every harvest job and every sequence of extraction passes with
overlapping handles, the collected entity list (the shared dedup walk of
lines 367-420 / 936-950, iterated per pass) contains each sighted nonempty
handle exactly once; the record kept for a handle is its first sighting, so
first-seen attributes win and later duplicates never overwrite them; and the
records appear in first-seen order. -/
theorem harvest_dedupe_first_seen {α : Type} (u : α → String)
    (passes : List (List α)) :
    ((collectPasses u ([], []) passes).2.map u).Nodup ∧
    (∀ h, h ≠ "" →
      (collectPasses u ([], []) passes).2.find? (fun e => u e == h) =
        passes.flatten.find? (fun e => u e == h)) ∧
    ((collectPasses u ([], []) passes).2.map u).Pairwise
      (fun a b => (passes.flatten.map u).indexOf a <
        (passes.flatten.map u).indexOf b) := by
  have hc : collectPasses u ([], []) passes = harvestFold u [] [] passes.flatten :=
    collectPasses_eq_flatten u passes [] []
  have hacc : (harvestFold u [] [] passes.flatten).2 =
      dedupFirst u [] passes.flatten := by
    rw [harvestFold_acc]
    exact List.nil_append _
  rw [hc, hacc]
  refine ⟨dedupFirst_nodup u passes.flatten [], ?_, dedupFirst_pairwise u passes.flatten []⟩
  intro h hne
  exact dedupFirst_find? u passes.flatten [] h hne (List.not_mem_nil h)

/-- Concrete duplicate-handle passes for the C3 witness: the handle "a" is
sighted again in the second pass with different attributes. -/
def c3Passes : List (List Entity) :=
  [[{ username := "a", full_name := "Alice", is_verified := false, profile_pic_url := "p1" },
    { username := "b", full_name := "Bob", is_verified := false, profile_pic_url := "" }],
   [{ username := "a", full_name := "Imposter", is_verified := true, profile_pic_url := "p2" },
    { username := "c", full_name := "Cara", is_verified := false, profile_pic_url := "" }]]

/-- C3 witness: the theorem applied to concrete overlapping passes; the entry
kept for "a" is its first sighting. -/
theorem harvest_dedupe_first_seen_witness :
    ("a" : String) ≠ "" ∧
    (collectPasses euname ([], []) c3Passes).2.find? (fun e => euname e == "a") =
      c3Passes.flatten.find? (fun e => euname e == "a") := by
  exact ⟨by decide, (harvest_dedupe_first_seen euname c3Passes).2.1 "a" (by decide)⟩

/-- Entities for the C4 counterexample surface. -/
def c4a : Entity :=
  { username := "a", full_name := "", is_verified := false, profile_pic_url := "" }

/-- Second entity of the C4 counterexample surface. -/
def c4b : Entity :=
  { username := "b", full_name := "", is_verified := false, profile_pic_url := "" }

/-- A finite plateauing surface of 2 distinct handles that stalls for six
passes before revealing the second handle: passes 1-7 render only `a`,
passes 8 onwards render `a` and `b` (so it plateaus from pass 8 on). -/
def c4Surface : Nat → List Entity := fun t => if t ≤ 7 then [c4a] else [c4a, c4b]

/-- C4 counterexample: on `c4Surface` — a finite source of exactly 2 distinct
handles that plateaus — the scroll loop exits via the idle-round threshold
after pass 6 having collected only 1 entity, not the 2 the source offers
(visible at pass 8): the claim fails for sources that idle five passes
before the plateau begins. -/
theorem harvest_plateau_counterexample :
    (scrollLoopGo c4Surface 500 initScrollState).2 = ScrollStop.endOfList ∧
    (scrollLoopGo c4Surface 500 initScrollState).1.scrollAttempts = 6 ∧
    (scrollLoopGo c4Surface 500 initScrollState).1.followers.length = 1 ∧
    (dedupFirst euname [] (passesFlat c4Surface 8)).length = 2 := by
  exact ⟨rfl, rfl, rfl, rfl⟩

/-- Full plateau run of the scroll loop: under a no-stall plateau at pass
`P` within the ceiling, the loop exits via the idle threshold at pass
`P + 5` having collected the dedup walk of everything rendered up to the
plateau.  Shared by the plateau-termination and truncation results. -/
theorem scroll_plateau_run (surface : Nat → List Entity) (P : Nat)
    (hP : 1 ≤ P) (hceil : P + 5 ≤ 500)
    (hplat : ∀ t, P ≤ t → surface t = surface P)
    (hnew : ∀ t, 1 ≤ t → t ≤ P → ∃ e ∈ surface t, euname e ≠ "" ∧
      ∀ t', 1 ≤ t' → t' < t → euname e ∉ (surface t').map euname) :
    (scrollLoopGo surface 500 initScrollState).2 = ScrollStop.endOfList ∧
    (scrollLoopGo surface 500 initScrollState).1.scrollAttempts = P + 5 ∧
    (scrollLoopGo surface 500 initScrollState).1.followers =
      dedupFirst euname [] (passesFlat surface P) := by
  have hinit : initScrollState =
      { seen := seenAfter surface 0, followers := folAfter surface 0,
        noNewCount := 0, scrollAttempts := 0 } := by
    simp [initScrollState, seenAfter, folAfter, passesFlat, harvestFold]
  have h1 := scroll_phase1 surface P hceil hnew P 0 (by omega)
  have hidle : ∀ t, P < t → ∀ e ∈ surface t,
      euname e = "" ∨ euname e ∈ seenAfter surface P := by
    intro t ht e he
    rw [hplat t (by omega)] at he
    by_cases hemp : euname e = ""
    · exact Or.inl hemp
    · refine Or.inr ?_
      show euname e ∈ (harvestFold euname [] [] (passesFlat surface P)).1
      rw [harvestFold_seen_mem]
      refine Or.inr ⟨hemp, (mem_passesFlat_map surface P _).mpr ⟨P - 1, by omega, ?_⟩⟩
      rw [show P - 1 + 1 = P by omega]
      exact List.mem_map_of_mem euname he
  have h2 := scroll_phase2 surface (seenAfter surface P) (folAfter surface P)
    5 (by omega) (by omega) P (by omega) hidle (500 - P) (by omega)
  rw [Nat.sub_self] at h2
  rw [hinit, show (500 : Nat) = 500 - 0 from rfl, h1, h2]
  refine ⟨rfl, rfl, ?_⟩
  show folAfter surface P = _
  rw [folAfter, harvestFold_acc]
  exact List.nil_append _

/-- C4 (amended): if the surface reveals at least one never-before-rendered
handle on every pass up to pass `P` and renders exactly its pass-`P` content
from then on (plateau with no intermediate idle stall), with the plateau
beginning within the pass ceiling, then the loop terminates via the
idle-round threshold exactly `maxNoNewScrolls` passes after the plateau
begins and collects exactly the N distinct handles rendered — the dedup walk
of everything rendered up to the plateau. -/
theorem harvest_plateau_terminates (surface : Nat → List Entity) (P : Nat)
    (hP : 1 ≤ P) (hceil : P + 5 ≤ 500)
    (hplat : ∀ t, P ≤ t → surface t = surface P)
    (hnew : ∀ t, 1 ≤ t → t ≤ P → ∃ e ∈ surface t, euname e ≠ "" ∧
      ∀ t', 1 ≤ t' → t' < t → euname e ∉ (surface t').map euname) :
    (scrollLoopGo surface 500 initScrollState).2 = ScrollStop.endOfList ∧
    (scrollLoopGo surface 500 initScrollState).1.scrollAttempts = P + 5 ∧
    (scrollLoopGo surface 500 initScrollState).1.followers =
      dedupFirst euname [] (passesFlat surface P) :=
  scroll_plateau_run surface P hP hceil hplat hnew

/-- The single entity of the C4 witness surface. -/
def c4wEntity : Entity :=
  { username := "w", full_name := "", is_verified := false, profile_pic_url := "" }

/-- A surface constant from the first pass on: plateau at pass 1. -/
def c4wSurface : Nat → List Entity := fun _ => [c4wEntity]

/-- C4 witness: the amended theorem applied to the one-handle constant
surface — the loop ends via the idle threshold at pass 6 with that handle
collected. -/
theorem harvest_plateau_terminates_witness :
    (scrollLoopGo c4wSurface 500 initScrollState).2 = ScrollStop.endOfList ∧
    (scrollLoopGo c4wSurface 500 initScrollState).1.scrollAttempts = 6 ∧
    (scrollLoopGo c4wSurface 500 initScrollState).1.followers = [c4wEntity] := by
  have h := harvest_plateau_terminates c4wSurface 1 (by omega) (by omega)
    (fun t ht => rfl)
    (fun t h1 h2 => ⟨c4wEntity, by simp [c4wSurface], by decide,
      fun t' h1' hlt' => absurd hlt' (by omega)⟩)
  refine ⟨h.1, h.2.1, ?_⟩
  rw [h.2.2]
  rfl

/-- C5: for any surface that yields a never-before-rendered handle on every
extraction pass, the scroll loop terminates exactly at the hard 500-pass
ceiling and the exit is the safety-ceiling condition, which
`instagram_get_followers` still reports as a successful result
(`success = True` at line 527), never as a fatal error. -/
theorem harvest_always_new_hits_ceiling (surface : Nat → List Entity)
    (limit : Nat)
    (hnew : ∀ t, 1 ≤ t → ∃ e ∈ surface t, euname e ≠ "" ∧
      ∀ t', 1 ≤ t' → t' < t → euname e ∉ (surface t').map euname) :
    (scrollLoopGo surface 500 initScrollState).2 = ScrollStop.safetyCeiling ∧
    (scrollLoopGo surface 500 initScrollState).1.scrollAttempts = 500 ∧
    (instagram_get_followers surface limit).success = true := by
  have hinit : initScrollState =
      { seen := seenAfter surface 0, followers := folAfter surface 0,
        noNewCount := 0, scrollAttempts := 0 } := by
    simp [initScrollState, seenAfter, folAfter, passesFlat, harvestFold]
  have h := scroll_ceiling_go surface hnew 500 0 (by omega) (by omega)
  rw [hinit, h]
  exact ⟨rfl, rfl, rfl⟩

/-- The C5 witness surface: pass `t` renders one handle of `t` letters, so
every pass reveals a fresh handle forever. -/
def c5Surface : Nat → List Entity := fun t =>
  [{ username := String.mk (List.replicate t 'a'), full_name := "",
     is_verified := false, profile_pic_url := "" }]

/-- C5 witness: the theorem applied to the always-fresh surface. -/
theorem harvest_always_new_hits_ceiling_witness :
    (scrollLoopGo c5Surface 500 initScrollState).2 = ScrollStop.safetyCeiling ∧
    (scrollLoopGo c5Surface 500 initScrollState).1.scrollAttempts = 500 ∧
    (instagram_get_followers c5Surface 500).success = true := by
  have h := harvest_always_new_hits_ceiling c5Surface 500 (fun t ht =>
    ⟨{ username := String.mk (List.replicate t 'a'), full_name := "",
       is_verified := false, profile_pic_url := "" },
     by simp [c5Surface],
     by
       show String.mk (List.replicate t 'a') ≠ ""
       intro hcon
       have := congrArg String.length hcon
       simp [String.length] at this
       omega,
     by
       intro t' h1' hlt' hmem
       simp only [c5Surface, List.map_cons, List.map_nil, List.mem_singleton] at hmem
       have heq : String.mk (List.replicate t 'a') = String.mk (List.replicate t' 'a') := hmem
       injection heq with hd
       have := congrArg List.length hd
       simp at this
       omega⟩)
  exact h

theorem dedupFirst_split {α : Type} (u : α → String) (l₁ l₂ : List α) :
    dedupFirst u [] (l₁ ++ l₂) =
      dedupFirst u [] l₁ ++ dedupFirst u (harvestFold u [] [] l₁).1 l₂ := by
  have h2 := harvestFold_acc u (l₁ ++ l₂) [] []
  have h3 := harvestFold_append u l₁ l₂ [] []
  have h4 := harvestFold_acc u l₂ (harvestFold u [] [] l₁).1 (harvestFold u [] [] l₁).2
  have h5 := harvestFold_acc u l₁ [] []
  rw [List.nil_append] at h2 h5
  rw [h3, h4, h5] at h2
  exact h2.symm

theorem pagesUsers_split (pages : List ApiPage) (k : Nat) :
    pagesUsers pages = pagesUsers (pages.take k) ++ pagesUsers (pages.drop k) := by
  show (pages.map ApiPage.users).flatten =
    ((pages.take k).map ApiPage.users).flatten ++ ((pages.drop k).map ApiPage.users).flatten
  rw [← List.flatten_append, ← List.map_append, List.take_append_drop]

/-- The pagination loop never falls back when every page it could request
succeeds. -/
theorem apiPaginateGo_no_error (limit : Nat) :
    ∀ (pages : List ApiPage) (seen : List String) (fol : List ApiUserRecord)
      (reqs : Nat), (∀ p ∈ pages, p.status = 200) →
      (apiPaginateGo limit pages seen fol reqs).fallbackInvocations = 0 ∧
      (apiPaginateGo limit pages seen fol reqs).completedViaApi = true
  | [], seen, fol, reqs, _ => by
    simp only [apiPaginateGo]
    by_cases hl : limit ≤ fol.length
    · rw [if_pos hl]; exact ⟨rfl, rfl⟩
    · rw [if_neg hl]; exact ⟨rfl, rfl⟩
  | p :: rest, seen, fol, reqs, hall => by
    simp only [apiPaginateGo]
    by_cases hl : limit ≤ fol.length
    · rw [if_pos hl]; exact ⟨rfl, rfl⟩
    · rw [if_neg hl, if_neg (by simp [hall p (List.mem_cons_self _ _)])]
      by_cases hm : (p.has_more && cursorTruthy p.next_max_id) = true
      · rw [if_pos hm]
        exact apiPaginateGo_no_error limit rest _ _ _
          (fun q hq => hall q (List.mem_cons_of_mem _ hq))
      · rw [if_neg hm]; exact ⟨rfl, rfl⟩

/-- C6: with the prerequisites present (extracted user id and csrftoken
cookie) and a positive limit, a non-success status on the very first page
request makes the harvest return the rendered-surface scraper's result after
exactly one structured request and exactly one rendered-surface invocation;
no further structured page requests happen in the job. -/
theorem api_first_page_error_falls_back (uid c : String) (limit : Nat)
    (p : ApiPage) (rest : List ApiPage) (hl : 1 ≤ limit) (hs : p.status ≠ 200) :
    instagram_get_followers_api (some uid) (some c) limit (p :: rest) =
      { apiRequests := 1, fallbackInvocations := 1, followers := [],
        completedViaApi := false } := by
  show apiPaginateGo limit (p :: rest) [] [] 0 = _
  simp only [apiPaginateGo]
  rw [if_neg (show ¬(limit ≤ ([] : List ApiUserRecord).length) by simp; omega)]
  rw [if_pos hs]

/-- C6 witness: a concrete job whose first page answers 403. -/
theorem api_first_page_error_falls_back_witness :
    instagram_get_followers_api (some "7") (some "tok") 100
      [{ status := 403, users := [], has_more := false, next_max_id := none }] =
      { apiRequests := 1, fallbackInvocations := 1, followers := [],
        completedViaApi := false } := by
  exact api_first_page_error_falls_back "7" "tok" 100 _ [] (by omega) (by decide)

/-- A user record served on the first page of the C7 counterexample. -/
def c7User : ApiUserRecord :=
  { username := "alice", full_name := "", is_verified := false,
    profile_pic_url := "", pk := "1", is_private := false,
    has_anonymous_profile_picture := false, latest_reel_media := 0 }

/-- C7 counterexample pages: a successful first page followed by a failing
second page. -/
def c7Pages : List ApiPage :=
  [{ status := 200, users := [c7User], has_more := true, next_max_id := some "X" },
   { status := 500, users := [], has_more := false, next_max_id := none }]

/-- C7 counterexample: after one successfully fetched and parsed page (one
user collected), a non-success status on the second page still switches the
job to the rendered-surface strategy (lines 908-921) and the collected
entities are discarded in favour of the scraper's result — refuting the
claim that fallback happens only when the structured endpoint never
succeeded even once. -/
theorem api_later_page_error_discards :
    (instagram_get_followers_api (some "7") (some "tok") 999999 c7Pages).apiRequests = 2 ∧
    (instagram_get_followers_api (some "7") (some "tok") 999999 c7Pages).followers = [c7User] ∧
    (instagram_get_followers_api (some "7") (some "tok") 999999 c7Pages).fallbackInvocations = 1 ∧
    (instagram_get_followers_api (some "7") (some "tok") 999999 c7Pages).completedViaApi = false := by
  exact ⟨rfl, rfl, rfl, rfl⟩

theorem pagesUsers_cons (g : ApiPage) (good : List ApiPage) :
    pagesUsers (g :: good) = g.users ++ pagesUsers good := by
  simp [pagesUsers]

theorem dedupFirst_length_le_append {α : Type} (u : α → String)
    (l₁ l₂ : List α) :
    (dedupFirst u [] l₁).length ≤ (dedupFirst u [] (l₁ ++ l₂)).length := by
  rw [dedupFirst_split, List.length_append]
  omega

/-- If the loop consumes an arbitrary run of successful continuing pages
without reaching the limit and then meets a non-success page, it issues one
structured request per consumed page plus one for the failure, invokes the
rendered-surface fallback once, and the accumulator it abandons is the dedup
walk of the users of the consumed pages. -/
theorem apiPaginateGo_error_after (limit : Nat) (bad : ApiPage)
    (rest : List ApiPage) (hbad : bad.status ≠ 200) :
    ∀ (good : List ApiPage) (c : List ApiUserRecord) (reqs : Nat),
      (∀ p ∈ good, p.status = 200) →
      (∀ p ∈ good, p.has_more = true ∧ cursorTruthy p.next_max_id = true) →
      (dedupFirst auname [] (c ++ pagesUsers good)).length < limit →
      apiPaginateGo limit (good ++ bad :: rest) (harvestFold auname [] [] c).1
          (harvestFold auname [] [] c).2 reqs =
        { apiRequests := reqs + good.length + 1, fallbackInvocations := 1,
          followers := (harvestFold auname [] [] (c ++ pagesUsers good)).2,
          completedViaApi := false }
  | [], c, reqs, _, _, hlen => by
    have hlen' : (dedupFirst auname [] c).length < limit := by
      simpa [pagesUsers] using hlen
    have hflen : (harvestFold auname [] [] c).2.length =
        (dedupFirst auname [] c).length := by
      rw [harvestFold_acc, List.nil_append]
    show apiPaginateGo limit (bad :: rest) _ _ reqs = _
    simp only [apiPaginateGo]
    rw [if_neg (show ¬(limit ≤ (harvestFold auname [] [] c).2.length) by
      rw [hflen]; omega)]
    rw [if_pos hbad]
    simp [pagesUsers]
  | g :: good', c, reqs, h200, hchain, hlen => by
    have hg200 := h200 g (List.mem_cons_self _ _)
    have hgc := hchain g (List.mem_cons_self _ _)
    have hflen : (harvestFold auname [] [] c).2.length =
        (dedupFirst auname [] c).length := by
      rw [harvestFold_acc, List.nil_append]
    have hmono := dedupFirst_length_le_append auname c (pagesUsers (g :: good'))
    show apiPaginateGo limit (g :: (good' ++ bad :: rest)) _ _ reqs = _
    simp only [apiPaginateGo]
    rw [if_neg (show ¬(limit ≤ (harvestFold auname [] [] c).2.length) by
      rw [hflen]; omega)]
    rw [if_neg (by simp [hg200])]
    rw [if_pos (by simp [hgc.1, hgc.2])]
    have hstep : harvestFold auname (harvestFold auname [] [] c).1
        (harvestFold auname [] [] c).2 g.users =
        harvestFold auname [] [] (c ++ g.users) := by
      rw [harvestFold_append]
    rw [hstep]
    rw [apiPaginateGo_error_after limit bad rest hbad good' (c ++ g.users)
      (reqs + 1) (fun p hp => h200 p (List.mem_cons_of_mem _ hp))
      (fun p hp => hchain p (List.mem_cons_of_mem _ hp))
      (by rw [List.append_assoc, ← pagesUsers_cons]; exact hlen)]
    rw [pagesUsers_cons, ← List.append_assoc, List.length_cons]
    simp only [ApiRun.mk.injEq, and_true]
    omega

/-- C7 (amended): the job switches to the rendered-surface strategy exactly
when some structured page request returns a non-success status (or a
prerequisite is missing): if every requested page succeeds the job never
falls back and completes via the structured endpoint; but a non-success on
any page request — after any number of successfully fetched and parsed
pages — also triggers the fallback exactly once, one structured request past
the consumed pages, discarding the entities already collected from the
structured endpoint. -/
theorem api_fallback_iff_page_error (uid c : String) (limit : Nat)
    (pages good : List ApiPage) (bad : ApiPage) (rest : List ApiPage)
    (hall : ∀ p ∈ pages, p.status = 200)
    (hgood200 : ∀ p ∈ good, p.status = 200)
    (hgoodchain : ∀ p ∈ good, p.has_more = true ∧ cursorTruthy p.next_max_id = true)
    (hbad : bad.status ≠ 200)
    (hlen : (dedupFirst auname [] (pagesUsers good)).length < limit) :
    (instagram_get_followers_api (some uid) (some c) limit pages).fallbackInvocations = 0 ∧
    (instagram_get_followers_api (some uid) (some c) limit pages).completedViaApi = true ∧
    (instagram_get_followers_api (some uid) (some c) limit
      (good ++ bad :: rest)).fallbackInvocations = 1 ∧
    (instagram_get_followers_api (some uid) (some c) limit
      (good ++ bad :: rest)).completedViaApi = false ∧
    (instagram_get_followers_api (some uid) (some c) limit
      (good ++ bad :: rest)).followers = dedupFirst auname [] (pagesUsers good) ∧
    (instagram_get_followers_api (some uid) (some c) limit
      (good ++ bad :: rest)).apiRequests = good.length + 1 := by
  have hok := apiPaginateGo_no_error limit pages [] [] 0 hall
  have hrun : instagram_get_followers_api (some uid) (some c) limit
      (good ++ bad :: rest) =
      { apiRequests := 0 + good.length + 1, fallbackInvocations := 1,
        followers := (harvestFold auname [] [] ([] ++ pagesUsers good)).2,
        completedViaApi := false } := by
    show apiPaginateGo limit (good ++ bad :: rest) (harvestFold auname [] [] []).1
      (harvestFold auname [] [] []).2 0 = _
    exact apiPaginateGo_error_after limit bad rest hbad good [] 0 hgood200
      hgoodchain (by simpa using hlen)
  refine ⟨hok.1, hok.2, ?_, ?_, ?_, ?_⟩ <;> rw [hrun]
  · show (harvestFold auname [] [] ([] ++ pagesUsers good)).2 = _
    rw [List.nil_append, harvestFold_acc, List.nil_append]
  · show 0 + good.length + 1 = good.length + 1
    omega

/-- Second user record of the C7 witness chain. -/
def c7User2 : ApiUserRecord :=
  { username := "bob", full_name := "", is_verified := false,
    profile_pic_url := "", pk := "2", is_private := false,
    has_anonymous_profile_picture := false, latest_reel_media := 0 }

/-- Two successful continuing pages preceding the failure in the C7
witness. -/
def c7Good : List ApiPage :=
  [{ status := 200, users := [c7User], has_more := true, next_max_id := some "X" },
   { status := 200, users := [c7User2], has_more := true, next_max_id := some "Y" }]

/-- The failing third page of the C7 witness chain. -/
def c7Bad : ApiPage :=
  { status := 500, users := [], has_more := false, next_max_id := none }

/-- C7 witness: the amended theorem applied to an all-success chain and to a
chain failing on its third request, after two successful pages. -/
theorem api_fallback_iff_page_error_witness :
    (instagram_get_followers_api (some "7") (some "tok") 999999
      [{ status := 200, users := [c7User], has_more := false, next_max_id := none }]
      ).fallbackInvocations = 0 ∧
    (instagram_get_followers_api (some "7") (some "tok") 999999
      (c7Good ++ c7Bad :: [])).fallbackInvocations = 1 ∧
    (instagram_get_followers_api (some "7") (some "tok") 999999
      (c7Good ++ c7Bad :: [])).apiRequests = 3 := by
  have h := api_fallback_iff_page_error "7" "tok" 999999
    [{ status := 200, users := [c7User], has_more := false, next_max_id := none }]
    c7Good c7Bad []
    (by decide) (by decide) (by decide) (by decide) (by decide)
  refine ⟨h.1, h.2.2.1, ?_⟩
  rw [h.2.2.2.2.2]
  decide

/-- Structured-endpoint truncation: with prerequisites present, against an
all-success well-formed cursor chain offering more than `limit` distinct
handles, the pagination completes via the API and its returned list — the
accumulator truncated to the limit (line 979) — is exactly the first
`limit` handles in first-seen order, so it has exactly `limit` entries. -/
theorem api_truncation_core (uid c : String) (limit : Nat)
    (pages : List ApiPage)
    (hall : ∀ p ∈ pages, p.status = 200) (hchain : chainOk pages = true)
    (hoffer : limit < (dedupFirst auname [] (pagesUsers pages)).length) :
    (instagram_get_followers_api (some uid) (some c) limit pages).completedViaApi = true ∧
    apiReturnedFollowers (instagram_get_followers_api (some uid) (some c) limit pages)
      limit = (dedupFirst auname [] (pagesUsers pages)).take limit ∧
    (apiReturnedFollowers (instagram_get_followers_api (some uid) (some c) limit pages)
      limit).length = limit := by
  obtain ⟨h1, -, k, hk, hfol, hdisj⟩ := apiPaginateGo_ok limit pages [] 0 hall hchain
  rw [List.nil_append] at hfol
  have hfol2 : (apiPaginateGo limit pages (harvestFold auname [] [] []).1
      (harvestFold auname [] [] []).2 0).followers =
      dedupFirst auname [] (pagesUsers (pages.take k)) := by
    rw [hfol, harvestFold_acc, List.nil_append]
  have hsplit : dedupFirst auname [] (pagesUsers pages) =
      dedupFirst auname [] (pagesUsers (pages.take k)) ++
        dedupFirst auname
          (harvestFold auname [] [] (pagesUsers (pages.take k))).1
          (pagesUsers (pages.drop k)) := by
    rw [pagesUsers_split pages k, dedupFirst_split]
  refine ⟨h1, ?_, ?_⟩
  · show List.take limit (apiPaginateGo limit pages (harvestFold auname [] [] []).1
      (harvestFold auname [] [] []).2 0).followers = _
    rw [hfol2, hsplit]
    rcases hdisj with hlim | hkall
    · rw [hfol2] at hlim
      rw [List.take_append_of_le_length hlim]
    · subst hkall
      rw [List.take_length] at hfol2 hsplit ⊢
      rw [← hsplit]
  · show (List.take limit (apiPaginateGo limit pages (harvestFold auname [] [] []).1
      (harvestFold auname [] [] []).2 0).followers).length = limit
    rw [hfol2, List.length_take]
    rcases hdisj with hlim | hkall
    · rw [hfol2] at hlim
      exact Nat.min_eq_left hlim
    · subst hkall
      rw [List.take_length] at hfol2 ⊢
      exact Nat.min_eq_left (by omega)

/-- First user of the C8 witness chain. -/
def c8a : ApiUserRecord :=
  { username := "a", full_name := "", is_verified := false, profile_pic_url := "",
    pk := "1", is_private := false, has_anonymous_profile_picture := false,
    latest_reel_media := 0 }

/-- Second user of the C8 witness chain. -/
def c8b : ApiUserRecord :=
  { username := "b", full_name := "", is_verified := false, profile_pic_url := "",
    pk := "2", is_private := false, has_anonymous_profile_picture := false,
    latest_reel_media := 0 }

/-- Third user of the C8 witness chain. -/
def c8c : ApiUserRecord :=
  { username := "c", full_name := "", is_verified := false, profile_pic_url := "",
    pk := "3", is_private := false, has_anonymous_profile_picture := false,
    latest_reel_media := 0 }

/-- C8 witness chain: two successful pages offering three distinct handles. -/
def c8Pages : List ApiPage :=
  [{ status := 200, users := [c8a, c8b], has_more := true, next_max_id := some "X" },
   { status := 200, users := [c8c], has_more := false, next_max_id := none }]

/-- First handle of the C8 stalling counterexample surface. -/
def c8f1 : Entity :=
  { username := "u1", full_name := "", is_verified := false, profile_pic_url := "" }

/-- Second handle of the C8 stalling counterexample surface. -/
def c8f2 : Entity :=
  { username := "u2", full_name := "", is_verified := false, profile_pic_url := "" }

/-- Third handle of the C8 stalling counterexample surface. -/
def c8f3 : Entity :=
  { username := "u3", full_name := "", is_verified := false, profile_pic_url := "" }

/-- A rendered surface offering 3 distinct handles that idles for five
passes before revealing the last two: passes 1-6 render only `u1`, passes 7
onwards render all three. -/
def c8StallSurface : Nat → List Entity := fun t =>
  if t ≤ 6 then [c8f1] else [c8f1, c8f2, c8f3]

/-- C8 counterexample: a rendered-surface harvest with upper bound 2 against
`c8StallSurface`, a source offering 3 > 2 distinct handles, returns only 1
entity: the idle-round heuristic (lines 425-430) ends collection before the
source reveals the rest, so the returned list does not have exactly U
entries — refuting the claim for the rendered-surface path it covers
(lines 526-530). -/
theorem harvest_truncation_counterexample :
    (dedupFirst euname [] (passesFlat c8StallSurface 7)).length = 3 ∧
    (instagram_get_followers c8StallSurface 2).followers.length = 1 ∧
    (instagram_get_followers c8StallSurface 2).success = true := by
  exact ⟨rfl, rfl, rfl⟩

/-- C8 (amended): both harvest paths truncate the collected list to the
upper bound `limit` before returning it.  For the structured-endpoint path,
against an all-success well-formed cursor chain offering more than `limit`
distinct handles, the returned list is exactly the first `limit` handles in
first-seen order (exactly `limit` entries).  For the rendered-surface path
the returned list is always the loop's collected list truncated to `limit`;
it has exactly `limit` entries consisting of the first `limit` first-seen
handles provided the loop collects at least `limit` — e.g. under a no-stall
plateau offering at least `limit` distinct handles — but a source that
idles five consecutive passes before revealing more handles can end
collection below `limit` (see the counterexample). -/
theorem harvest_upper_bound_truncation (uid c : String) (limit : Nat)
    (pages : List ApiPage) (surface : Nat → List Entity) (P : Nat)
    (hall : ∀ p ∈ pages, p.status = 200) (hchain : chainOk pages = true)
    (hoffer : limit < (dedupFirst auname [] (pagesUsers pages)).length)
    (hP : 1 ≤ P) (hceil : P + 5 ≤ 500)
    (hplat : ∀ t, P ≤ t → surface t = surface P)
    (hnew : ∀ t, 1 ≤ t → t ≤ P → ∃ e ∈ surface t, euname e ≠ "" ∧
      ∀ t', 1 ≤ t' → t' < t → euname e ∉ (surface t').map euname)
    (hU : limit ≤ (dedupFirst euname [] (passesFlat surface P)).length) :
    (instagram_get_followers_api (some uid) (some c) limit pages).completedViaApi = true ∧
    apiReturnedFollowers (instagram_get_followers_api (some uid) (some c) limit pages)
      limit = (dedupFirst auname [] (pagesUsers pages)).take limit ∧
    (apiReturnedFollowers (instagram_get_followers_api (some uid) (some c) limit pages)
      limit).length = limit ∧
    (∀ (s : Nat → List Entity) (n : Nat), (instagram_get_followers s n).followers =
      (scrollLoopGo s 500 initScrollState).1.followers.take n) ∧
    (instagram_get_followers surface limit).followers =
      (dedupFirst euname [] (passesFlat surface P)).take limit ∧
    (instagram_get_followers surface limit).followers.length = limit := by
  obtain ⟨hapi1, hapi2, hapi3⟩ := api_truncation_core uid c limit pages hall hchain hoffer
  have hrun := scroll_plateau_run surface P hP hceil hplat hnew
  have hfol : (instagram_get_followers surface limit).followers =
      (dedupFirst euname [] (passesFlat surface P)).take limit := by
    show ((scrollLoopGo surface 500 initScrollState).1.followers).take limit = _
    rw [hrun.2.2]
  refine ⟨hapi1, hapi2, hapi3, fun s n => rfl, hfol, ?_⟩
  rw [hfol, List.length_take]
  exact Nat.min_eq_left hU

/-- Two handles of the C8 witness surface. -/
def c8wEntity1 : Entity :=
  { username := "x1", full_name := "", is_verified := false, profile_pic_url := "" }

/-- Second handle of the C8 witness surface. -/
def c8wEntity2 : Entity :=
  { username := "x2", full_name := "", is_verified := false, profile_pic_url := "" }

/-- The C8 witness surface: constant from the first pass, offering exactly
two distinct handles. -/
def c8wSurface : Nat → List Entity := fun _ => [c8wEntity1, c8wEntity2]

/-- C8 witness: the amended theorem applied to an upper bound of 2 against a
structured chain offering 3 handles and a rendered surface offering 2. -/
theorem harvest_upper_bound_truncation_witness :
    (instagram_get_followers_api (some "7") (some "tok") 2 c8Pages).completedViaApi
      = true ∧
    apiReturnedFollowers (instagram_get_followers_api (some "7") (some "tok") 2
      c8Pages) 2 = (dedupFirst auname [] (pagesUsers c8Pages)).take 2 ∧
    (instagram_get_followers c8wSurface 2).followers.length = 2 := by
  have h := harvest_upper_bound_truncation "7" "tok" 2 c8Pages c8wSurface 1
    (by decide) (by decide) (by decide) (by omega) (by omega)
    (fun t ht => rfl)
    (fun t h1 h2 => ⟨c8wEntity1, by simp [c8wSurface], by decide,
      fun t' h1' hlt' => absurd hlt' (by omega)⟩)
    (by decide)
  exact ⟨h.1, h.2.1, h.2.2.2.2.2⟩

end InstagramTool
